import Mathlib

/-!
# ReactAsyncLocalStorage (ReactUbuntu runtime)

A shallow embedding of `ReactUbuntu/runtime/src/reactasynclocalstorage.cpp`:
the bridged key-value storage module with its five operations
(`multiGet`, `multiSet`, `multiRemove`, `clear`, `getAllKeys`), its constructor
and `setBridge`.

Conventions of the embedding.

* A `QVariant` is a small tree type with the four shapes the module builds:
  the invalid variant `QVariant()`, a string, a `QVariantList` and a
  `QVariantMap`.
* A pointer is an `Option`: `nullptr` is `none`.
* The reply callback is not run; every operation returns the module after the
  call together with the list of callback invocations it made, in order.
* `QList::first()` / `QList::last()` on an empty list is a failing access; an
  operation that reaches one returns `none`.
* The process environment read by `setBridge` (application name, runtime
  location, `XDG_RUNTIME_DIR`, the contents of settings files) is an explicit
  `Environment` argument.
* The settings engine `QSettings` is a collaborator outside the repository; it
  is modelled by the store interface of the specification (a string-to-string
  map with unique keys).  `QString::arg` is modelled by its documented
  place-marker substitution, since `setBridge` builds the store path with two
  chained calls of it.
-/

namespace ReactUbuntu

/-! ## Strings -/

abbrev QString := String

/-- Method `QString::isEmpty`. -/
def QString.isEmpty (s : QString) : Bool := s.data.isEmpty

/-- Method `QChar::digitValue` on the ASCII digits (`none` stands for `-1`). -/
def digitValue (c : Char) : Option Nat :=
  if c.isDigit then some (c.toNat - 48) else none

/-- The place marker that starts right after a `%`: an optional `L`, then one
or two digits.  Returns the marker's number and how many characters after the
`%` belong to it (the scanning step shared by `findArgEscapes` and
`replaceArgEscapes`). -/
def parseEscape (cs : List Char) : Option (Nat × Nat) :=
  let body (n : Nat) (ds : List Char) : Option (Nat × Nat) :=
    match ds with
    | [] => none
    | d1 :: t =>
      match digitValue d1 with
      | none => none
      | some v1 =>
        match t with
        | [] => some (v1, n + 1)
        | d2 :: _ =>
          match digitValue d2 with
          | none => some (v1, n + 1)
          | some v2 => some (10 * v1 + v2, n + 2)
  match cs with
  | 'L' :: t => body 1 t
  | _ => body 0 cs

/-- Function `findArgEscapes` of Qt: the numbers of the place markers of a string, left
to right.  `skip` counts the characters still belonging to the marker just
read. -/
def argEscapes : Nat → List Char → List Nat
  | _, [] => []
  | skip + 1, _ :: t => argEscapes skip t
  | 0, c :: t =>
    if c = '%' then
      match parseEscape t with
      | some (n, len) => n :: argEscapes len t
      | none => argEscapes 0 t
    else argEscapes 0 t

/-- The lowest place-marker number (`min_escape`), when there is a marker. -/
def minEscape (cs : List Char) : Option Nat :=
  match argEscapes 0 cs with
  | [] => none
  | n :: ns => some (ns.foldl min n)

/-- Function `replaceArgEscapes` of Qt with field width 0: every marker whose number is
`m` is replaced by `a`, all other text is copied. -/
def replaceArgEscapes (m : Nat) (a : List Char) : Nat → List Char → List Char
  | _, [] => []
  | skip + 1, _ :: t => replaceArgEscapes m a skip t
  | 0, c :: t =>
    if c = '%' then
      match parseEscape t with
      | some (n, len) =>
        if n = m then a ++ replaceArgEscapes m a len t
        else c :: replaceArgEscapes m a 0 t
      | none => c :: replaceArgEscapes m a 0 t
    else c :: replaceArgEscapes m a 0 t

/-- Method `QString::arg(const QString &a)`: the lowest-numbered place marker is
replaced by `a`; a string without a marker is returned unchanged. -/
def QString.arg (s a : QString) : QString :=
  match minEscape s.data with
  | none => s
  | some m => ⟨replaceArgEscapes m a.data 0 s.data⟩

/-! ## Variants -/

inductive QVariant where
  | invalid : QVariant
  | string (s : QString) : QVariant
  | list (l : List QVariant) : QVariant
  | map (m : List (QString × QVariant)) : QVariant

abbrev QVariantList := List QVariant

abbrev QVariantMap := List (QString × QVariant)

/-- Method `QMap::insert`: the value of an existing key is replaced, a new key is put
at its place in key order. -/
def QVariantMap.insert : QVariantMap → QString → QVariant → QVariantMap
  | [], k, v => [(k, v)]
  | (k1, v1) :: t, k, v =>
    if k = k1 then (k, v) :: t
    else if k < k1 then (k, v) :: (k1, v1) :: t
    else (k1, v1) :: QVariantMap.insert t k v

/-- Function `makeError(message, extraData)` of the anonymous namespace. -/
def makeError (message : QString) (extraData : QVariantMap) : QVariantMap :=
  let rc := extraData
  rc.insert "message" (QVariant.string message)

/-! ## The settings store -/

/-- The key/value contents of a settings file: keys are unique. -/
abbrev Contents := { l : List (QString × QString) // (l.map Prod.fst).Nodup }

inductive QSettings.Format where
  | NativeFormat
  | IniFormat
  deriving DecidableEq, Repr

/-- Modelled from the spec: the Qt settings engine (class `QSettings`), which
is outside the repository.  Following the spec's data model it is a mapping
from string key to string value with unique keys, kept under one file name,
with the primitives `value`, `setValue`, `remove`, `clear`, `allKeys`. -/
structure QSettings where
  fileName : QString
  format : QSettings.Format
  fallbacksEnabled : Bool
  contents : Contents

namespace QSettings

/-- Modelled from the spec: `get(key)`, absent (the invalid variant) if the key
is not present. -/
def value (s : QSettings) (key : QString) : QVariant :=
  match s.contents.1.lookup key with
  | some v => QVariant.string v
  | none => QVariant.invalid

/-- Modelled from the spec: one write of `setMany`; a later write of the same
key overwrites the earlier one. -/
def setValue (s : QSettings) (key value : QString) : QSettings :=
  { s with contents :=
      ⟨(key, value) :: s.contents.1.filter (fun e => decide (e.1 ≠ key)), by
        rw [List.map_cons, List.nodup_cons]
        refine ⟨?_, List.Nodup.sublist (List.Sublist.map _ (List.filter_sublist _)) s.contents.2⟩
        intro hk
        obtain ⟨e, he, hek⟩ := List.mem_map.1 hk
        have hne := (List.mem_filter.1 he).2
        simp at hne
        exact hne hek⟩ }

/-- Modelled from the spec: one removal of `removeMany`; removing an absent key
is a no-op. -/
def remove (s : QSettings) (key : QString) : QSettings :=
  { s with contents :=
      ⟨s.contents.1.filter (fun e => decide (e.1 ≠ key)),
        List.Nodup.sublist (List.Sublist.map _ (List.filter_sublist _)) s.contents.2⟩ }

/-- Modelled from the spec: `clearAll`, removes every key. -/
def clear (s : QSettings) : QSettings :=
  { s with contents := ⟨[], List.nodup_nil⟩ }

/-- Modelled from the spec: `allKeys`, the current keys in store order. -/
def allKeys (s : QSettings) : List QString :=
  s.contents.1.map Prod.fst

/-- Method `QSettings::setFallbacksEnabled`. -/
def setFallbacksEnabled (s : QSettings) (b : Bool) : QSettings :=
  { s with fallbacksEnabled := b }

end QSettings

/-! ## The module -/

/-- The error object of the not-ready branch: one field, `message`. -/
def storageError : QVariant :=
  QVariant.map [("message", QVariant.string "Could not open storage file")]

abbrev ReactBridge := Nat

/-- What `setBridge` reads from the process. -/
structure Environment where
  /-- Result of `qApp->applicationName()`. -/
  applicationName : QString
  /-- Result of `QStandardPaths::writableLocation(QStandardPaths::RuntimeLocation)`. -/
  runtimeLocation : QString
  /-- Result of `qgetenv("XDG_RUNTIME_DIR")`. -/
  xdgRuntimeDir : QString
  /-- What the settings file at a path holds when it is opened. -/
  files : QString → Contents

/-- Constructor call `new QSettings(fileName, format, parent)`: fallbacks are enabled by
default. -/
def QSettings.open (env : Environment) (fileName : QString) (format : QSettings.Format) :
    QSettings :=
  { fileName := fileName, format := format, fallbacksEnabled := true,
    contents := env.files fileName }

structure ReactAsyncLocalStorage where
  m_bridge : Option ReactBridge
  m_settings : Option QSettings

/-- One call of the reply callback: `callback(bridge, args)`. -/
structure Invocation where
  bridge : Option ReactBridge
  args : QVariantList

/-- The module after an operation and the callback calls the operation made. -/
structure Outcome where
  self : ReactAsyncLocalStorage
  callbacks : List Invocation

namespace ReactAsyncLocalStorage

/-- The constructor `ReactAsyncLocalStorage(QObject* parent)`. -/
def new : ReactAsyncLocalStorage :=
  { m_bridge := none, m_settings := none }

/-- The reply of the `m_settings == nullptr` branch, the same in the five
operations. -/
def notReadyReply : QVariantList :=
  [QVariant.list [QVariant.map (makeError "Could not open storage file" [])],
    QVariant.invalid]

def multiGet (self : ReactAsyncLocalStorage) (keys : List QString) : Outcome :=
  match self.m_settings with
  | none => ⟨self, [⟨self.m_bridge, notReadyReply⟩]⟩
  | some settings =>
    let rc : QVariantList :=
      keys.foldl (fun rc key => rc ++ [QVariant.list [QVariant.string key, settings.value key]]) []
    ⟨self, [⟨self.m_bridge, [QVariant.invalid, QVariant.list rc]⟩]⟩

/-- The body of the loop of `multiSet`:
`m_settings->setValue(pair.first(), pair.last())`; `first()` and `last()` of an
empty list are failing accesses. -/
def setPair (settings : QSettings) (pair : List QString) : Option QSettings :=
  match pair.head?, pair.getLast? with
  | some first, some last => some (settings.setValue first last)
  | _, _ => none

def multiSet (self : ReactAsyncLocalStorage) (kvPairs : List (List QString)) :
    Option Outcome :=
  match self.m_settings with
  | none => some ⟨self, [⟨self.m_bridge, notReadyReply⟩]⟩
  | some settings =>
    match kvPairs.foldlM setPair settings with
    | none => none
    | some s => some ⟨{ self with m_settings := some s }, [⟨self.m_bridge, [QVariant.invalid]⟩]⟩

def multiRemove (self : ReactAsyncLocalStorage) (keys : List QString) : Outcome :=
  match self.m_settings with
  | none => ⟨self, [⟨self.m_bridge, notReadyReply⟩]⟩
  | some settings =>
    let s := keys.foldl (fun (s : QSettings) key => s.remove key) settings
    ⟨{ self with m_settings := some s }, [⟨self.m_bridge, [QVariant.invalid]⟩]⟩

def clear (self : ReactAsyncLocalStorage) : Outcome :=
  match self.m_settings with
  | none => ⟨self, [⟨self.m_bridge, notReadyReply⟩]⟩
  | some settings =>
    ⟨{ self with m_settings := some settings.clear }, [⟨self.m_bridge, [QVariant.invalid]⟩]⟩

def getAllKeys (self : ReactAsyncLocalStorage) : Outcome :=
  match self.m_settings with
  | none => ⟨self, [⟨self.m_bridge, notReadyReply⟩]⟩
  | some settings =>
    let sk := settings.allKeys
    let rc : QVariantList := sk.map QVariant.string
    ⟨self, [⟨self.m_bridge, [QVariant.invalid, QVariant.list rc]⟩]⟩

def setBridge (self : ReactAsyncLocalStorage) (bridge : Option ReactBridge)
    (env : Environment) : ReactAsyncLocalStorage :=
  let self := { self with m_bridge := bridge }
  let applicationName := env.applicationName
  if applicationName.isEmpty then self
  else
    let runtimeDir := env.runtimeLocation
    let runtimeDir := if runtimeDir.isEmpty then env.xdgRuntimeDir else runtimeDir
    if runtimeDir.isEmpty then self
    else
      let settings :=
        QSettings.open env
          ((QString.arg (QString.arg "%1/%2/react-state-store" runtimeDir) applicationName))
          QSettings.Format.NativeFormat
      { self with m_settings := some (settings.setFallbacksEnabled false) }

/-- Readiness: `m_settings != nullptr`. -/
def ready (self : ReactAsyncLocalStorage) : Bool := self.m_settings.isSome

end ReactAsyncLocalStorage

/-- A public call on a module instance. -/
inductive Call where
  | multiGet (keys : List QString)
  | multiSet (kvPairs : List (List QString))
  | multiRemove (keys : List QString)
  | clear
  | getAllKeys
  | setBridge (bridge : Option ReactBridge) (env : Environment)

/-- One public call; `none` when the call hits a failing access. -/
def step (self : ReactAsyncLocalStorage) : Call → Option Outcome
  | Call.multiGet keys => some (self.multiGet keys)
  | Call.multiSet kvPairs => self.multiSet kvPairs
  | Call.multiRemove keys => some (self.multiRemove keys)
  | Call.clear => some self.clear
  | Call.getAllKeys => some self.getAllKeys
  | Call.setBridge bridge env => some ⟨self.setBridge bridge env, []⟩

/-- A sequence of public calls, one after the other; the callback calls are
collected in order. -/
def run (self : ReactAsyncLocalStorage) : List Call → Option Outcome
  | [] => some ⟨self, []⟩
  | c :: cs =>
    match step self c with
    | none => none
    | some o =>
      match run o.self cs with
      | none => none
      | some o2 => some ⟨o2.self, o.callbacks ++ o2.callbacks⟩

/-- The condition under which `setBridge` returns early without opening a
store: the application name is empty, or the runtime location and
`XDG_RUNTIME_DIR` are both empty. -/
def attachFails (env : Environment) : Bool :=
  env.applicationName.isEmpty || (env.runtimeLocation.isEmpty && env.xdgRuntimeDir.isEmpty)

/-- A file system in which every settings file is empty. -/
def emptyFiles : QString → Contents := fun _ => ⟨[], List.nodup_nil⟩

/-! ## Lemmas on the loops and the store -/

open ReactAsyncLocalStorage

theorem notReadyReply_eq : notReadyReply = [QVariant.list [storageError], QVariant.invalid] := by
  simp [notReadyReply, storageError, makeError, QVariantMap.insert]

theorem foldl_push_eq_map {α β : Type} (f : α → β) (l : List α) (acc : List β) :
    l.foldl (fun rc x => rc ++ [f x]) acc = acc ++ l.map f := by
  induction l generalizing acc with
  | nil => simp
  | cons x t ih => simp [ih]

theorem multiGet_ready (self : ReactAsyncLocalStorage) (settings : QSettings)
    (h : self.m_settings = some settings) (keys : List QString) :
    self.multiGet keys =
      ⟨self, [⟨self.m_bridge, [QVariant.invalid,
        QVariant.list (keys.map fun key => QVariant.list [QVariant.string key, settings.value key])]⟩]⟩ := by
  simp [multiGet, h, foldl_push_eq_map]

/-! ## Lemmas on the store -/

theorem lookup_filter_ne (l : List (QString × QString)) (k k1 : QString) (h : k ≠ k1) :
    (l.filter (fun e => decide (e.1 ≠ k1))).lookup k = l.lookup k := by
  induction l with
  | nil => rfl
  | cons e t ih =>
    obtain ⟨a, b⟩ := e
    by_cases ha : a = k1
    · subst ha
      have hk : (k == a) = false := by simpa using h
      have hd : decide ((a, b).1 ≠ a) = false := by simp
      rw [List.filter_cons, hd, List.lookup_cons, hk]
      simpa using ih
    · have hd : decide ((a, b).1 ≠ k1) = true := by simpa using ha
      rw [List.filter_cons, hd]
      simp only [if_true, List.lookup_cons]
      rw [ih]

theorem filter_ne_of_not_mem (l : List (QString × QString)) (k : QString)
    (h : k ∉ l.map Prod.fst) : l.filter (fun e => decide (e.1 ≠ k)) = l := by
  rw [List.filter_eq_self]
  intro e he
  have : e.1 ≠ k := fun hk => h (hk ▸ List.mem_map_of_mem Prod.fst he)
  simpa using this

theorem setValue_lookup_same (s : QSettings) (k v : QString) :
    (s.setValue k v).contents.1.lookup k = some v := by
  simp [QSettings.setValue, List.lookup_cons]

theorem setValue_lookup_ne (s : QSettings) (k k1 v : QString) (h : k ≠ k1) :
    (s.setValue k1 v).contents.1.lookup k = s.contents.1.lookup k := by
  have hk : (k == k1) = false := by simpa using h
  show List.lookup k ((k1, v) :: s.contents.1.filter (fun e => decide (e.1 ≠ k1))) = _
  rw [List.lookup_cons, hk]
  exact lookup_filter_ne _ _ _ h

theorem mem_allKeys_setValue (s : QSettings) (k v x : QString) :
    x ∈ (s.setValue k v).allKeys ↔ x = k ∨ x ∈ s.allKeys := by
  show x ∈ ((k, v) :: s.contents.1.filter (fun e => decide (e.1 ≠ k))).map Prod.fst
    ↔ x = k ∨ x ∈ s.contents.1.map Prod.fst
  simp only [List.map_cons, List.mem_cons, List.mem_map, List.mem_filter]
  constructor
  · rintro (h0 | ⟨e, ⟨he, _⟩, rfl⟩)
    · exact Or.inl h0
    · exact Or.inr ⟨e, he, rfl⟩
  · rintro (h0 | ⟨e, he, rfl⟩)
    · exact Or.inl h0
    · by_cases hk : e.1 = k
      · exact Or.inl hk
      · exact Or.inr ⟨e, ⟨he, by simpa using hk⟩, rfl⟩

theorem remove_of_not_mem (s : QSettings) (k : QString) (h : k ∉ s.allKeys) :
    s.remove k = s := by
  obtain ⟨f, fmt, fb, ⟨l, hl⟩⟩ := s
  simp only [QSettings.remove, QSettings.mk.injEq, true_and]
  exact Subtype.ext (filter_ne_of_not_mem l k h)

theorem foldl_remove_of_not_mem (keys : List QString) (s : QSettings)
    (h : ∀ k ∈ keys, k ∉ s.allKeys) :
    keys.foldl (fun (s : QSettings) key => s.remove key) s = s := by
  induction keys with
  | nil => rfl
  | cons k t ih =>
    rw [List.foldl_cons, remove_of_not_mem s k (h k (List.mem_cons_self _ _))]
    exact ih fun x hx => h x (List.mem_cons_of_mem _ hx)

theorem setPair_of_ne_nil (s : QSettings) (p : List QString) (hp : p ≠ []) :
    ∃ first last, p.head? = some first ∧ p.getLast? = some last
      ∧ setPair s p = some (s.setValue first last) := by
  cases hh : p.head? with
  | none => exact absurd (List.head?_eq_none_iff.1 hh) hp
  | some first =>
    cases hl : p.getLast? with
    | none => exact absurd (List.getLast?_eq_none_iff.1 hl) hp
    | some last => exact ⟨first, last, rfl, rfl, by simp [setPair, hh, hl]⟩

theorem foldlM_setPair_keep (post : List (List QString)) (s : QSettings) (k : QString)
    (hne : ∀ q ∈ post, q ≠ []) (hk : ∀ q ∈ post, q.head? ≠ some k) :
    ∃ s1, post.foldlM setPair s = some s1
      ∧ s1.contents.1.lookup k = s.contents.1.lookup k := by
  induction post generalizing s with
  | nil => exact ⟨s, rfl, rfl⟩
  | cons q t ih =>
    obtain ⟨first, last, hf, _, hset⟩ := setPair_of_ne_nil s q (hne q (List.mem_cons_self _ _))
    have hkf : k ≠ first := fun e => hk q (List.mem_cons_self _ _) (e ▸ hf)
    obtain ⟨s1, h1, h2⟩ := ih (s.setValue first last)
      (fun x hx => hne x (List.mem_cons_of_mem _ hx)) (fun x hx => hk x (List.mem_cons_of_mem _ hx))
    refine ⟨s1, ?_, ?_⟩
    · rw [List.foldlM_cons, hset]; exact h1
    · rw [h2, setValue_lookup_ne _ _ _ _ hkf]

theorem foldlM_setPair_total (kv : List (List QString)) (s : QSettings)
    (hne : ∀ q ∈ kv, q ≠ []) : ∃ s1, kv.foldlM setPair s = some s1 := by
  induction kv generalizing s with
  | nil => exact ⟨s, rfl⟩
  | cons q t ih =>
    obtain ⟨first, last, _, _, hset⟩ := setPair_of_ne_nil s q (hne q (List.mem_cons_self _ _))
    obtain ⟨s1, h1⟩ := ih (s.setValue first last) (fun x hx => hne x (List.mem_cons_of_mem _ hx))
    exact ⟨s1, by rw [List.foldlM_cons, hset]; exact h1⟩

theorem foldlM_setPair_last (pre post : List (List QString)) (p : List QString)
    (s : QSettings) (first last : QString)
    (hpre : ∀ q ∈ pre, q ≠ []) (hpost : ∀ q ∈ post, q ≠ [])
    (hf : p.head? = some first) (hl : p.getLast? = some last)
    (hk : ∀ q ∈ post, q.head? ≠ some first) :
    ∃ s1, (pre ++ p :: post).foldlM setPair s = some s1
      ∧ s1.contents.1.lookup first = some last := by
  obtain ⟨s0, h0⟩ := foldlM_setPair_total pre s hpre
  obtain ⟨s1, h1, h2⟩ := foldlM_setPair_keep post (s0.setValue first last) first hpost hk
  refine ⟨s1, ?_, ?_⟩
  · rw [List.foldlM_append, h0]
    show List.foldlM setPair s0 (p :: post) = some s1
    rw [List.foldlM_cons]
    have : setPair s0 p = some (s0.setValue first last) := by simp [setPair, hf, hl]
    rw [this]; exact h1
  · rw [h2, setValue_lookup_same]

theorem setPair_eq_of_ne_nil (s : QSettings) (p : List QString) (hp : p ≠ []) :
    setPair s p = some (s.setValue (p.headD "") (p.getLastD "")) := by
  obtain ⟨first, last, hf, hl, hset⟩ := setPair_of_ne_nil s p hp
  rw [hset, List.headD_eq_head?, List.getLastD_eq_getLast?, hf, hl]
  rfl

theorem foldlM_setPair_eq_foldl (kv : List (List QString)) (s : QSettings)
    (hne : ∀ q ∈ kv, q ≠ []) :
    kv.foldlM setPair s
      = some (kv.foldl (fun (s : QSettings) p => s.setValue (p.headD "") (p.getLastD "")) s) := by
  induction kv generalizing s with
  | nil => rfl
  | cons q t ih =>
    rw [List.foldlM_cons, setPair_eq_of_ne_nil s q (hne q (List.mem_cons_self _ _))]
    exact ih _ (fun x hx => hne x (List.mem_cons_of_mem _ hx))

theorem mem_allKeys_foldl_setValue (kv : List (List QString)) (s : QSettings) (x : QString) :
    x ∈ (kv.foldl (fun (s : QSettings) p => s.setValue (p.headD "") (p.getLastD "")) s).allKeys
      ↔ x ∈ s.allKeys ∨ ∃ p ∈ kv, p.headD "" = x := by
  induction kv generalizing s with
  | nil => simp
  | cons q t ih =>
    rw [List.foldl_cons, ih, mem_allKeys_setValue]
    constructor
    · rintro ((hx | hx) | ⟨p, hp, hpx⟩)
      · exact Or.inr ⟨q, List.mem_cons_self _ _, hx.symm⟩
      · exact Or.inl hx
      · exact Or.inr ⟨p, List.mem_cons_of_mem _ hp, hpx⟩
    · rintro (hx | ⟨p, hp, hpx⟩)
      · exact Or.inl (Or.inr hx)
      · rcases List.mem_cons.1 hp with rfl | hp
        · exact Or.inl (Or.inl hpx.symm)
        · exact Or.inr ⟨p, hp, hpx⟩

theorem multiSet_ready (self : ReactAsyncLocalStorage) (settings s1 : QSettings)
    (h : self.m_settings = some settings) (kvPairs : List (List QString))
    (hs : kvPairs.foldlM setPair settings = some s1) :
    self.multiSet kvPairs
      = some ⟨{ self with m_settings := some s1 }, [⟨self.m_bridge, [QVariant.invalid]⟩]⟩ := by
  simp [multiSet, h, hs]

/-! ## Claims -/

/-- C1, as stated, fails: on a fresh (not ready) module the error slot of the
`multiGet` reply is not the error object itself, and the `clear` reply is not
the one-slot list holding the error object. -/
theorem notReady_claimed_shape_fails :
    (ReactAsyncLocalStorage.new.multiGet []).callbacks
        ≠ [⟨none, [storageError, QVariant.invalid]⟩]
      ∧ ReactAsyncLocalStorage.new.clear.callbacks ≠ [⟨none, [storageError]⟩] := by
  constructor <;>
    simp [ReactAsyncLocalStorage.new, multiGet, ReactAsyncLocalStorage.clear, notReadyReply_eq,
      storageError]

/-- C1, amended: when the module is not ready, each of the five operations,
whatever its arguments, leaves the module unchanged and calls the callback once
with the two-slot reply `[[e], absent]`: the error slot is a one-element list
holding the error object `e`, whose only field is `message` with the text
"Could not open storage file", and the second slot is the invalid variant, for
the no-value operations too. -/
theorem notReady_reply (self : ReactAsyncLocalStorage) (h : self.m_settings = none)
    (keys : List QString) (kvPairs : List (List QString)) :
    self.multiGet keys = ⟨self, [⟨self.m_bridge, [QVariant.list [storageError], QVariant.invalid]⟩]⟩
      ∧ self.multiSet kvPairs
          = some ⟨self, [⟨self.m_bridge, [QVariant.list [storageError], QVariant.invalid]⟩]⟩
      ∧ self.multiRemove keys
          = ⟨self, [⟨self.m_bridge, [QVariant.list [storageError], QVariant.invalid]⟩]⟩
      ∧ self.clear = ⟨self, [⟨self.m_bridge, [QVariant.list [storageError], QVariant.invalid]⟩]⟩
      ∧ self.getAllKeys
          = ⟨self, [⟨self.m_bridge, [QVariant.list [storageError], QVariant.invalid]⟩]⟩ := by
  simp [multiGet, multiSet, multiRemove, ReactAsyncLocalStorage.clear, getAllKeys, h,
    notReadyReply_eq]

theorem notReady_reply_witness :
    ReactAsyncLocalStorage.new.multiGet ["a"]
        = ⟨ReactAsyncLocalStorage.new, [⟨none, [QVariant.list [storageError], QVariant.invalid]⟩]⟩ :=
  (notReady_reply ReactAsyncLocalStorage.new rfl ["a"] [["a", "b"]]).1

/-- C3: on a ready module `multiGet keys` leaves the module (and its store)
unchanged and replies `[absent, r]` once, where `r` is as long as `keys` and its
`i`-th entry is the pair `[keys[i], x]`, with `x` the stored value of `keys[i]`
when the store has one and the invalid variant otherwise. -/
theorem multiGet_order (self : ReactAsyncLocalStorage) (settings : QSettings)
    (h : self.m_settings = some settings) (keys : List QString) :
    ∃ r : QVariantList,
      self.multiGet keys = ⟨self, [⟨self.m_bridge, [QVariant.invalid, QVariant.list r]⟩]⟩
        ∧ r.length = keys.length
        ∧ ∀ (i : Nat) (key : QString), keys[i]? = some key →
            r[i]? = some (QVariant.list [QVariant.string key,
              match settings.contents.1.lookup key with
              | some v => QVariant.string v
              | none => QVariant.invalid]) := by
  refine ⟨_, multiGet_ready self settings h keys, by simp, ?_⟩
  intro i key hk
  simp [List.getElem?_map, hk, QSettings.value]

theorem multiGet_order_witness :
    ∃ r : QVariantList,
      (ReactAsyncLocalStorage.mk none (some ⟨"f", QSettings.Format.NativeFormat, false,
          ⟨[("b", "2"), ("a", "1")], by decide⟩⟩)).multiGet ["a", "zz", "a"]
        = ⟨ReactAsyncLocalStorage.mk none (some ⟨"f", QSettings.Format.NativeFormat, false,
            ⟨[("b", "2"), ("a", "1")], by decide⟩⟩),
            [⟨none, [QVariant.invalid, QVariant.list r]⟩]⟩
        ∧ r.length = 3 := by
  obtain ⟨r, h1, h2, _⟩ := multiGet_order
    (ReactAsyncLocalStorage.mk none (some ⟨"f", QSettings.Format.NativeFormat, false,
      ⟨[("b", "2"), ("a", "1")], by decide⟩⟩)) _ rfl ["a", "zz", "a"]
  exact ⟨r, h1, h2⟩

/-- C2: on a ready module, for a list of (key, value) pairs in which `(k, v)` is
the last pair with key `k`, `multiSet` of the pairs completes with the reply
`[absent]`, and a following `multiGet [k]` replies `[absent, [[k, v]]]`. -/
theorem multiSet_multiGet_roundtrip (self : ReactAsyncLocalStorage) (settings : QSettings)
    (h : self.m_settings = some settings) (pre post : List (QString × QString))
    (k v : QString) (hlast : ∀ p ∈ post, p.1 ≠ k) :
    ∃ o, self.multiSet ((pre ++ (k, v) :: post).map fun p => [p.1, p.2]) = some o
      ∧ o.callbacks = [⟨self.m_bridge, [QVariant.invalid]⟩]
      ∧ (o.self.multiGet [k]).callbacks
          = [⟨self.m_bridge, [QVariant.invalid,
              QVariant.list [QVariant.list [QVariant.string k, QVariant.string v]]]⟩] := by
  obtain ⟨s1, h1, h2⟩ := foldlM_setPair_last (pre.map fun p => [p.1, p.2])
    (post.map fun p => [p.1, p.2]) [k, v] settings k v
    (by intro q hq; obtain ⟨p, _, rfl⟩ := List.mem_map.1 hq; simp)
    (by intro q hq; obtain ⟨p, _, rfl⟩ := List.mem_map.1 hq; simp)
    rfl rfl
    (by
      intro q hq
      obtain ⟨p, hp, rfl⟩ := List.mem_map.1 hq
      simpa using hlast p hp)
  refine ⟨⟨{ self with m_settings := some s1 }, [⟨self.m_bridge, [QVariant.invalid]⟩]⟩, ?_, rfl, ?_⟩
  · rw [List.map_append, List.map_cons]
    exact multiSet_ready self settings s1 h _ h1
  · rw [multiGet_ready _ s1 rfl]
    simp [QSettings.value, h2]

theorem multiSet_multiGet_roundtrip_witness :
    ∃ o, (ReactAsyncLocalStorage.mk none (some ⟨"f", QSettings.Format.NativeFormat, false,
          ⟨[("k", "old")], by decide⟩⟩)).multiSet [["k", "a"], ["k", "b"], ["j", "c"]] = some o
      ∧ o.callbacks = [⟨none, [QVariant.invalid]⟩]
      ∧ (o.self.multiGet ["k"]).callbacks
          = [⟨none, [QVariant.invalid,
              QVariant.list [QVariant.list [QVariant.string "k", QVariant.string "b"]]]⟩] :=
  multiSet_multiGet_roundtrip
    (ReactAsyncLocalStorage.mk none (some ⟨"f", QSettings.Format.NativeFormat, false,
      ⟨[("k", "old")], by decide⟩⟩)) _ rfl [("k", "a")] [("j", "c")] "k" "b" (by decide)

/-- C4, as stated, fails: on a ready module whose store already holds the key
"z", after `multiSet [["a","1"],["b","2"]]` the reply of `getAllKeys` lists "z"
besides "a" and "b", so it is not a list of exactly the keys "a" and "b". -/
theorem getAllKeys_keeps_prior_keys :
    ((ReactAsyncLocalStorage.mk none (some ⟨"f", QSettings.Format.NativeFormat, false,
        ⟨[("z", "0")], by decide⟩⟩)).multiSet [["a", "1"], ["b", "2"]]).map
      (fun o => o.self.getAllKeys.callbacks)
      = some [⟨none, [QVariant.invalid,
          QVariant.list [QVariant.string "b", QVariant.string "a", QVariant.string "z"]]⟩]
    ∧ ¬ ∃ ks : List QString,
        ((ReactAsyncLocalStorage.mk none (some ⟨"f", QSettings.Format.NativeFormat, false,
          ⟨[("z", "0")], by decide⟩⟩)).multiSet [["a", "1"], ["b", "2"]]).map
          (fun o => o.self.getAllKeys.callbacks)
          = some [⟨none, [QVariant.invalid, QVariant.list (ks.map QVariant.string)]⟩]
        ∧ ∀ x, x ∈ ks ↔ x = "a" ∨ x = "b" := by
  refine ⟨rfl, ?_⟩
  rintro ⟨ks, h, hx⟩
  have hz : QVariant.string "z" ∈ ks.map QVariant.string := by
    have h1 : [QVariant.string "b", QVariant.string "a", QVariant.string "z"]
        = ks.map QVariant.string := by
      simpa [multiSet, setPair, getAllKeys, QSettings.allKeys, QSettings.setValue] using h
    rw [← h1]
    simp
  obtain ⟨x, hxm, hxe⟩ := List.mem_map.1 hz
  cases hxe
  have := (hx "z").1 hxm
  revert this
  decide

/-- C4, amended: on a ready module, after `multiSet [[k1,v1],[k2,v2]]` the call
`getAllKeys` replies `[absent, ks]` where `ks` has no repetition and contains
exactly `k1`, `k2` and the keys the store held before the `multiSet`; on a store
that was empty these are exactly `k1` and `k2`. -/
theorem getAllKeys_after_multiSet (self : ReactAsyncLocalStorage) (settings : QSettings)
    (h : self.m_settings = some settings) (k1 v1 k2 v2 : QString) :
    ∃ (o : Outcome) (ks : List QString), self.multiSet [[k1, v1], [k2, v2]] = some o
      ∧ o.self.getAllKeys
          = ⟨o.self, [⟨self.m_bridge, [QVariant.invalid, QVariant.list (ks.map QVariant.string)]⟩]⟩
      ∧ ks.Nodup
      ∧ (∀ x, x ∈ ks ↔ x = k1 ∨ x = k2 ∨ x ∈ settings.allKeys)
      ∧ (settings.allKeys = [] → ∀ x, x ∈ ks ↔ x = k1 ∨ x = k2) := by
  have hs : [[k1, v1], [k2, v2]].foldlM setPair settings
      = some ((settings.setValue k1 v1).setValue k2 v2) := rfl
  have hmem : ∀ x, x ∈ ((settings.setValue k1 v1).setValue k2 v2).allKeys
      ↔ x = k1 ∨ x = k2 ∨ x ∈ settings.allKeys := by
    intro x
    rw [mem_allKeys_setValue, mem_allKeys_setValue]
    tauto
  refine ⟨⟨{ self with m_settings := some ((settings.setValue k1 v1).setValue k2 v2) },
      [⟨self.m_bridge, [QVariant.invalid]⟩]⟩,
    ((settings.setValue k1 v1).setValue k2 v2).allKeys,
    multiSet_ready self settings _ h _ hs, ?_, ?_, hmem, ?_⟩
  · simp [getAllKeys]
  · exact ((settings.setValue k1 v1).setValue k2 v2).contents.2
  · intro he x
    rw [hmem x, he]
    simp

theorem getAllKeys_after_multiSet_witness :
    ∃ (o : Outcome) (ks : List QString), (ReactAsyncLocalStorage.mk none (some ⟨"f", QSettings.Format.NativeFormat, false,
          ⟨[("z", "0")], by decide⟩⟩)).multiSet [["a", "1"], ["b", "2"]] = some o
      ∧ o.self.getAllKeys
          = ⟨o.self, [⟨none, [QVariant.invalid, QVariant.list (ks.map QVariant.string)]⟩]⟩
      ∧ ks.Nodup
      ∧ (∀ x, x ∈ ks ↔ x = "a" ∨ x = "b" ∨ x ∈ ["z"]) := by
  obtain ⟨o, ks, h1, h2, h3, h4, _⟩ := getAllKeys_after_multiSet
    (ReactAsyncLocalStorage.mk none (some ⟨"f", QSettings.Format.NativeFormat, false,
      ⟨[("z", "0")], by decide⟩⟩)) _ rfl "a" "1" "b" "2"
  exact ⟨o, ks, h1, h2, h3, h4⟩

/-- C5: on a ready module with any store contents, `clear` replies `[absent]`
once, a following `getAllKeys` replies `[absent, []]`, and a second `clear`
leaves the module as the first one left it (store empty) and gives the same
reply. -/
theorem clear_idempotent (self : ReactAsyncLocalStorage) (settings : QSettings)
    (h : self.m_settings = some settings) :
    self.clear.callbacks = [⟨self.m_bridge, [QVariant.invalid]⟩]
      ∧ self.clear.self.getAllKeys.callbacks
          = [⟨self.m_bridge, [QVariant.invalid, QVariant.list []]⟩]
      ∧ self.clear.self.clear = self.clear
      ∧ (∃ s, self.clear.self.m_settings = some s ∧ s.contents.1 = []) := by
  simp [ReactAsyncLocalStorage.clear, getAllKeys, h, QSettings.clear, QSettings.allKeys]

theorem clear_idempotent_witness :
    (ReactAsyncLocalStorage.mk none (some ⟨"f", QSettings.Format.NativeFormat, false,
        ⟨[("z", "0")], by decide⟩⟩)).clear.self.getAllKeys.callbacks
      = [⟨none, [QVariant.invalid, QVariant.list []]⟩] :=
  (clear_idempotent
    (ReactAsyncLocalStorage.mk none (some ⟨"f", QSettings.Format.NativeFormat, false,
      ⟨[("z", "0")], by decide⟩⟩)) _ rfl).2.1

/-- C6: on a ready module, `multiRemove keys` with no key of `keys` present in
the store replies `[absent]` once and leaves the module, with the contents of
its store, exactly as it was. -/
theorem multiRemove_absent_noop (self : ReactAsyncLocalStorage) (settings : QSettings)
    (h : self.m_settings = some settings) (keys : List QString)
    (habsent : ∀ k ∈ keys, k ∉ settings.allKeys) :
    self.multiRemove keys = ⟨self, [⟨self.m_bridge, [QVariant.invalid]⟩]⟩ := by
  obtain ⟨b, s⟩ := self
  simp only at h
  subst h
  simp [multiRemove, foldl_remove_of_not_mem keys settings habsent]

theorem multiRemove_absent_noop_witness :
    (ReactAsyncLocalStorage.mk none (some ⟨"f", QSettings.Format.NativeFormat, false,
        ⟨[], by decide⟩⟩)).multiRemove ["nonexistent"]
      = ⟨ReactAsyncLocalStorage.mk none (some ⟨"f", QSettings.Format.NativeFormat, false,
          ⟨[], by decide⟩⟩), [⟨none, [QVariant.invalid]⟩]⟩ :=
  multiRemove_absent_noop
    (ReactAsyncLocalStorage.mk none (some ⟨"f", QSettings.Format.NativeFormat, false,
      ⟨[], by decide⟩⟩)) _ rfl ["nonexistent"] (by decide)

/-- C10, as stated, fails: on a ready module with an empty store the argument
`[[], ["a","1"]]` holds the inner list `["a","1"]` of length 2, yet `multiSet`
stops at the failing access on the empty inner list before it: nothing is
reported written and no reply is made; the same happens for `[["a","1"], []]`. -/
theorem multiSet_pair_beside_empty_fails :
    (ReactAsyncLocalStorage.mk none (some ⟨"f", QSettings.Format.NativeFormat, false,
        ⟨[], by decide⟩⟩)).multiSet [[], ["a", "1"]] = none
      ∧ (ReactAsyncLocalStorage.mk none (some ⟨"f", QSettings.Format.NativeFormat, false,
        ⟨[], by decide⟩⟩)).multiSet [["a", "1"], []] = none := by
  constructor <;> rfl

/-- C10, amended: on a ready module, for an argument whose inner lists all have
at least one element, `multiSet` completes with the reply `[absent]` and the
store it leaves is the store before with, for every inner list `p` in argument
order, the last element of `p` written under the first element of `p`, and
nothing else: middle elements are neither keys nor values of a write, and a
list whose length is not 2 is not rejected (a one-element list `[k]` writes `k`
under `k`).  So the keys afterwards are the keys before and the first
elements, and unless a later inner list starts with the same key the store
holds the last element of `p` under the first element of `p`. -/
theorem multiSet_pair_decoding (self : ReactAsyncLocalStorage) (settings : QSettings)
    (h : self.m_settings = some settings) (kvPairs : List (List QString))
    (hne : ∀ p ∈ kvPairs, p ≠ []) :
    ∃ s1 : QSettings,
      self.multiSet kvPairs
          = some ⟨{ self with m_settings := some s1 }, [⟨self.m_bridge, [QVariant.invalid]⟩]⟩
        ∧ s1 = kvPairs.foldl
            (fun (s : QSettings) p => s.setValue (p.headD "") (p.getLastD "")) settings
        ∧ (∀ x, x ∈ s1.allKeys ↔ x ∈ settings.allKeys ∨ ∃ p ∈ kvPairs, p.head? = some x)
        ∧ ∀ (pre post : List (List QString)) (p : List QString) (first last : QString),
            kvPairs = pre ++ p :: post → p.head? = some first → p.getLast? = some last →
            (∀ q ∈ post, q.head? ≠ some first) → s1.value first = QVariant.string last := by
  have hs1 := foldlM_setPair_eq_foldl kvPairs settings hne
  refine ⟨_, multiSet_ready self settings _ h kvPairs hs1, rfl, ?_, ?_⟩
  · intro x
    rw [mem_allKeys_foldl_setValue]
    constructor
    · rintro (hx | ⟨p, hp, hpx⟩)
      · exact Or.inl hx
      · refine Or.inr ⟨p, hp, ?_⟩
        obtain ⟨a, t, rfl⟩ := List.exists_cons_of_ne_nil (hne p hp)
        simpa using hpx
    · rintro (hx | ⟨p, hp, hpx⟩)
      · exact Or.inl hx
      · refine Or.inr ⟨p, hp, ?_⟩
        rw [List.headD_eq_head?, hpx]
        rfl
  · intro pre post p first last hkv hf hl hk
    subst hkv
    obtain ⟨s2, h2, h3⟩ := foldlM_setPair_last pre post p settings first last
      (fun q hq => hne q (List.mem_append_left _ hq))
      (fun q hq => hne q (List.mem_append_right _ (List.mem_cons_of_mem _ hq))) hf hl hk
    rw [hs1] at h2
    cases h2
    show (match List.lookup first _ with
      | some v => QVariant.string v
      | none => QVariant.invalid) = _
    rw [h3]

theorem multiSet_pair_decoding_witness :
    ∃ s1 : QSettings,
      (ReactAsyncLocalStorage.mk none (some ⟨"f", QSettings.Format.NativeFormat, false,
          ⟨[], by decide⟩⟩)).multiSet [["a", "x", "y", "b"], ["k"]]
        = some ⟨ReactAsyncLocalStorage.mk none (some s1), [⟨none, [QVariant.invalid]⟩]⟩
      ∧ s1.contents.1 = [("k", "k"), ("a", "b")]
      ∧ s1.value "k" = QVariant.string "k" ∧ s1.value "a" = QVariant.string "b" := by
  obtain ⟨s1, h1, h2, _, h4⟩ := multiSet_pair_decoding
    (ReactAsyncLocalStorage.mk none (some ⟨"f", QSettings.Format.NativeFormat, false,
      ⟨[], by decide⟩⟩)) _ rfl [["a", "x", "y", "b"], ["k"]] (by decide)
  exact ⟨s1, h1, by rw [h2]; rfl,
    h4 [["a", "x", "y", "b"]] [] ["k"] "k" "k" rfl rfl rfl (by simp),
    h4 [] [["k"]] ["a", "x", "y", "b"] "a" "b" rfl rfl rfl (by decide)⟩

/-- C7, the failing input: on a ready module `multiSet [[]]` reaches
`pair.first()` on an empty list, a failing access, and so makes no reply. -/
theorem multiSet_empty_pair_fails (bridge : Option ReactBridge) (settings : QSettings) :
    (ReactAsyncLocalStorage.mk bridge (some settings)).multiSet [[]] = none := by
  rfl

/-- Every operation other than a ready `multiSet` of an argument with an empty
inner list completes and calls the callback exactly once. -/
theorem operation_replies_once (self : ReactAsyncLocalStorage) (c : Call)
    (hop : ∀ b e, c ≠ Call.setBridge b e)
    (hne : ∀ kvPairs, c = Call.multiSet kvPairs → self.ready = true → ∀ p ∈ kvPairs, p ≠ []) :
    ∃ o, step self c = some o ∧ o.callbacks.length = 1 := by
  cases c with
  | multiGet keys => exact ⟨_, rfl, by cases hs : self.m_settings <;> simp [multiGet, hs]⟩
  | multiRemove keys => exact ⟨_, rfl, by cases hs : self.m_settings <;> simp [multiRemove, hs]⟩
  | clear =>
    exact ⟨_, rfl, by cases hs : self.m_settings <;> simp [ReactAsyncLocalStorage.clear, hs]⟩
  | getAllKeys => exact ⟨_, rfl, by cases hs : self.m_settings <;> simp [getAllKeys, hs]⟩
  | setBridge b e => exact absurd rfl (hop b e)
  | multiSet kvPairs =>
    cases hs : self.m_settings with
    | none =>
      exact ⟨⟨self, [⟨self.m_bridge, notReadyReply⟩]⟩, by simp [step, multiSet, hs], rfl⟩
    | some settings =>
      obtain ⟨s1, h1⟩ := foldlM_setPair_total kvPairs settings
        (hne kvPairs rfl (by simp [ReactAsyncLocalStorage.ready, hs]))
      exact ⟨_, multiSet_ready self settings s1 hs kvPairs h1, rfl⟩

/-! ## Attachment -/

theorem setBridge_of_attachFails (self : ReactAsyncLocalStorage) (bridge : Option ReactBridge)
    (env : Environment) (hfail : attachFails env = true) :
    (self.setBridge bridge env).m_settings = self.m_settings := by
  unfold attachFails at hfail
  unfold setBridge
  by_cases ha : env.applicationName.isEmpty = true
  · simp [ha]
  · by_cases hr : env.runtimeLocation.isEmpty = true
    · simp [ha, hr] at hfail ⊢
      simp [hfail]
    · simp [ha, hr] at hfail

theorem setBridge_of_not_attachFails (self : ReactAsyncLocalStorage)
    (bridge : Option ReactBridge) (env : Environment) (hok : attachFails env = false) :
    (self.setBridge bridge env).m_settings
      = some ⟨QString.arg (QString.arg "%1/%2/react-state-store"
            (if env.runtimeLocation.isEmpty then env.xdgRuntimeDir else env.runtimeLocation))
          env.applicationName,
        QSettings.Format.NativeFormat, false,
        env.files (QString.arg (QString.arg "%1/%2/react-state-store"
            (if env.runtimeLocation.isEmpty then env.xdgRuntimeDir else env.runtimeLocation))
          env.applicationName)⟩ := by
  unfold attachFails at hok
  unfold setBridge
  by_cases ha : env.applicationName.isEmpty = true
  · simp [ha] at hok
  · by_cases hr : env.runtimeLocation.isEmpty = true
    · simp [ha, hr] at hok ⊢
      simp [hok, QSettings.open, QSettings.setFallbacksEnabled]
    · simp [ha, hr, QSettings.open, QSettings.setFallbacksEnabled]

theorem step_operation_ready (self : ReactAsyncLocalStorage) (c : Call) (o : Outcome)
    (hop : ∀ b e, c ≠ Call.setBridge b e) (h : step self c = some o) :
    o.self.ready = self.ready := by
  cases c with
  | multiGet keys =>
    cases h
    cases hs : self.m_settings <;> simp [multiGet, hs]
  | multiRemove keys =>
    cases h
    cases hs : self.m_settings <;> simp [multiRemove, hs, ReactAsyncLocalStorage.ready]
  | clear =>
    cases h
    cases hs : self.m_settings <;>
      simp [ReactAsyncLocalStorage.clear, hs, ReactAsyncLocalStorage.ready]
  | getAllKeys =>
    cases h
    cases hs : self.m_settings <;> simp [getAllKeys, hs]
  | setBridge b e => exact absurd rfl (hop b e)
  | multiSet kvPairs =>
    cases hs : self.m_settings with
    | none =>
      simp only [step, multiSet, hs, Option.some.injEq] at h
      subst h
      rfl
    | some settings =>
      simp only [step, multiSet, hs] at h
      cases hw : kvPairs.foldlM setPair settings with
      | none => simp [hw] at h
      | some s1 =>
        simp only [hw, Option.some.injEq] at h
        subst h
        simp [ReactAsyncLocalStorage.ready, hs]

theorem run_notReady (calls : List Call) (self : ReactAsyncLocalStorage)
    (h : self.ready = false)
    (hcalls : ∀ b e, Call.setBridge b e ∈ calls → attachFails e = true) :
    ∃ o, run self calls = some o ∧ o.self.ready = false := by
  induction calls generalizing self with
  | nil => exact ⟨⟨self, []⟩, rfl, h⟩
  | cons c cs ih =>
    have hs : self.m_settings = none := by
      cases hm : self.m_settings with
      | none => rfl
      | some s => simp [ReactAsyncLocalStorage.ready, hm] at h
    have hstep : ∃ o1, step self c = some o1 ∧ o1.self.ready = false := by
      cases c with
      | multiGet keys => exact ⟨_, rfl, by simp [multiGet, hs, h]⟩
      | multiSet kvPairs =>
        exact ⟨⟨self, [⟨self.m_bridge, notReadyReply⟩]⟩, by simp [step, multiSet, hs], h⟩
      | multiRemove keys => exact ⟨_, rfl, by simp [multiRemove, hs, h]⟩
      | clear => exact ⟨_, rfl, by simp [ReactAsyncLocalStorage.clear, hs, h]⟩
      | getAllKeys => exact ⟨_, rfl, by simp [getAllKeys, hs, h]⟩
      | setBridge b e =>
        refine ⟨_, rfl, ?_⟩
        have := setBridge_of_attachFails self b e (hcalls b e (List.mem_cons_self _ _))
        simp [ReactAsyncLocalStorage.ready, this, hs]
    obtain ⟨o1, h1, h2⟩ := hstep
    obtain ⟨o2, h3, h4⟩ := ih o1.self h2 (fun b e hm => hcalls b e (List.mem_cons_of_mem _ hm))
    exact ⟨⟨o2.self, o1.callbacks ++ o2.callbacks⟩, by simp [run, h1, h3], h4⟩

/-- C8, as stated, fails: after an attach that failed for want of an
application name, a further `setBridge` call in an environment that has both an
application name and a runtime directory makes the module ready. -/
theorem failed_then_attached_is_ready :
    attachFails ⟨"", "/run/user/1000", "", emptyFiles⟩ = true
      ∧ (ReactAsyncLocalStorage.new.setBridge none
            ⟨"", "/run/user/1000", "", emptyFiles⟩).ready = false
      ∧ (run (ReactAsyncLocalStorage.new.setBridge none ⟨"", "/run/user/1000", "", emptyFiles⟩)
            [Call.multiGet ["a"],
              Call.setBridge none ⟨"app", "/run/user/1000", "", emptyFiles⟩]).map
          (fun o => o.self.ready) = some true := by
  decide

/-- C8, amended: a freshly constructed module is not ready; after an attach
that failed because the application name or the runtime directory was missing
the module is not ready, and it is still not ready after every sequence of
public calls in which each further `setBridge` call is again made in an
environment lacking the application name or the runtime directory (the five
operations with any arguments are unrestricted, and the sequence runs to its
end); and none of the five operations changes readiness in either direction. -/
theorem failed_stays_failed (bridge : Option ReactBridge) (env : Environment)
    (hfail : attachFails env = true) (calls : List Call)
    (hcalls : ∀ b e, Call.setBridge b e ∈ calls → attachFails e = true) :
    ReactAsyncLocalStorage.new.ready = false
      ∧ (ReactAsyncLocalStorage.new.setBridge bridge env).ready = false
      ∧ (∃ o, run (ReactAsyncLocalStorage.new.setBridge bridge env) calls = some o
          ∧ o.self.ready = false)
      ∧ ∀ (self : ReactAsyncLocalStorage) (c : Call) (o : Outcome),
          (∀ b e, c ≠ Call.setBridge b e) → step self c = some o → o.self.ready = self.ready := by
  have h0 : (ReactAsyncLocalStorage.new.setBridge bridge env).ready = false := by
    simp [ReactAsyncLocalStorage.ready, setBridge_of_attachFails _ bridge env hfail,
      ReactAsyncLocalStorage.new]
  exact ⟨rfl, h0, run_notReady calls _ h0 hcalls, step_operation_ready⟩

theorem failed_stays_failed_witness :
    ∃ o, run (ReactAsyncLocalStorage.new.setBridge (some 1) ⟨"app", "", "", emptyFiles⟩)
        [Call.multiSet [["a", "1"], []], Call.setBridge (some 2) ⟨"", "/run", "", emptyFiles⟩,
          Call.getAllKeys] = some o
      ∧ o.self.ready = false :=
  (failed_stays_failed (some 1) ⟨"app", "", "", emptyFiles⟩ (by decide)
    [Call.multiSet [["a", "1"], []], Call.setBridge (some 2) ⟨"", "/run", "", emptyFiles⟩,
      Call.getAllKeys]
    (by
      intro b e hm
      simp only [List.mem_cons, List.mem_singleton, Call.setBridge.injEq, reduceCtorEq,
        false_or, or_false, List.not_mem_nil] at hm
      obtain ⟨_, rfl⟩ := hm
      decide)).2.2.1

/-! ## The path of the store -/

theorem isEmpty_eq_true_iff (s : QString) : s.isEmpty = true ↔ s = "" := by
  constructor
  · intro h
    apply String.ext
    simpa [QString.isEmpty, List.isEmpty_iff] using h
  · rintro rfl
    rfl

theorem argEscapes_append_of_no_percent (l r : List Char) (hl : '%' ∉ l) :
    argEscapes 0 (l ++ r) = argEscapes 0 r := by
  induction l with
  | nil => rfl
  | cons c t ih =>
    simp only [List.mem_cons, not_or] at hl
    have hc : c ≠ '%' := fun e => hl.1 e.symm
    rw [List.cons_append, argEscapes, if_neg hc]
    exact ih hl.2

theorem replaceArgEscapes_append_of_no_percent (m : Nat) (a l r : List Char) (hl : '%' ∉ l) :
    replaceArgEscapes m a 0 (l ++ r) = l ++ replaceArgEscapes m a 0 r := by
  induction l with
  | nil => rfl
  | cons c t ih =>
    simp only [List.mem_cons, not_or] at hl
    have hc : c ≠ '%' := fun e => hl.1 e.symm
    rw [List.cons_append, replaceArgEscapes, if_neg hc, ih hl.2, List.cons_append]

/-- When the runtime directory holds no `%`, the two chained `arg` calls of
`setBridge` yield the directory, a slash, the application name and
`/react-state-store`. -/
theorem arg_arg_of_no_percent (d a : QString) (hd : '%' ∉ d.data) :
    QString.arg (QString.arg "%1/%2/react-state-store" d) a
      = d ++ "/" ++ a ++ "/react-state-store" := by
  have h1 : QString.arg "%1/%2/react-state-store" d
      = ⟨d.data ++ "/%2/react-state-store".data⟩ := by
    apply String.ext
    show (replaceArgEscapes 1 d.data 0 "%1/%2/react-state-store".data) = _
    simp [replaceArgEscapes, parseEscape, digitValue]
  rw [h1]
  have h2 : minEscape (d.data ++ "/%2/react-state-store".data) = some 2 := by
    unfold minEscape
    rw [argEscapes_append_of_no_percent _ _ hd]
    rfl
  apply String.ext
  unfold QString.arg
  simp only [h2]
  rw [replaceArgEscapes_append_of_no_percent _ _ _ _ hd]
  simp only [String.data_append]
  simp [replaceArgEscapes, parseEscape, digitValue]

/-- Readiness after `setBridge` on a fresh module: ready exactly when the
application name is non-empty and the runtime location or `XDG_RUNTIME_DIR` is
non-empty; the bridge is recorded in either case, and fallbacks are disabled
on the store that is opened. -/
theorem setBridge_ready_iff (bridge : Option ReactBridge) (env : Environment) :
    ((ReactAsyncLocalStorage.new.setBridge bridge env).ready = true
        ↔ env.applicationName ≠ "" ∧ (env.runtimeLocation ≠ "" ∨ env.xdgRuntimeDir ≠ ""))
      ∧ (ReactAsyncLocalStorage.new.setBridge bridge env).m_bridge = bridge
      ∧ ∀ s, (ReactAsyncLocalStorage.new.setBridge bridge env).m_settings = some s →
          s.fallbacksEnabled = false ∧ s.format = QSettings.Format.NativeFormat
            ∧ s.contents = env.files s.fileName := by
  have hb : (ReactAsyncLocalStorage.new.setBridge bridge env).m_bridge = bridge := by
    unfold setBridge
    dsimp only
    split_ifs <;> rfl
  cases hf : attachFails env with
  | true =>
    have hs : (ReactAsyncLocalStorage.new.setBridge bridge env).m_settings = none :=
      setBridge_of_attachFails ReactAsyncLocalStorage.new bridge env hf
    refine ⟨?_, hb, ?_⟩
    · simp only [ReactAsyncLocalStorage.ready, hs]
      simp only [attachFails, Bool.or_eq_true, Bool.and_eq_true, isEmpty_eq_true_iff] at hf
      constructor
      · intro h; simp at h
      · rintro ⟨h1, h2⟩
        rcases hf with hf | ⟨hf1, hf2⟩
        · exact absurd hf h1
        · rcases h2 with h2 | h2
          · exact absurd hf1 h2
          · exact absurd hf2 h2
    · intro s h
      rw [hs] at h
      cases h
  | false =>
    have hs := setBridge_of_not_attachFails ReactAsyncLocalStorage.new bridge env hf
    refine ⟨?_, hb, ?_⟩
    · simp only [ReactAsyncLocalStorage.ready, hs, Option.isSome_some, true_iff]
      simp only [attachFails, Bool.or_eq_false_iff, Bool.and_eq_false_iff] at hf
      obtain ⟨h1, h2⟩ := hf
      refine ⟨fun e => ?_, ?_⟩
      · rw [(isEmpty_eq_true_iff _).2 e] at h1
        exact absurd h1 (by decide)
      · rcases h2 with h2 | h2
        · exact Or.inl fun e => by
            rw [(isEmpty_eq_true_iff _).2 e] at h2
            exact absurd h2 (by decide)
        · exact Or.inr fun e => by
            rw [(isEmpty_eq_true_iff _).2 e] at h2
            exact absurd h2 (by decide)
    · intro s h
      rw [hs] at h
      cases h
      exact ⟨rfl, rfl, rfl⟩

/-- The store path of `setBridge` when the chosen runtime directory holds no
`%`: the directory, a slash, the application name and `/react-state-store`. -/
theorem setBridge_path_of_no_percent (bridge : Option ReactBridge) (env : Environment)
    (hok : attachFails env = false)
    (hd : '%' ∉ (if env.runtimeLocation.isEmpty then env.xdgRuntimeDir
      else env.runtimeLocation).data) :
    ((ReactAsyncLocalStorage.new.setBridge bridge env).m_settings.map fun s => s.fileName)
      = some ((if env.runtimeLocation.isEmpty then env.xdgRuntimeDir else env.runtimeLocation)
          ++ "/" ++ env.applicationName ++ "/react-state-store") := by
  rw [setBridge_of_not_attachFails _ bridge env hok]
  simp only [Option.map_some']
  rw [arg_arg_of_no_percent _ _ hd]

/-- C9, the failing input: with application name "app" and runtime location
"/tmp/%1" the module becomes ready, but the second `arg` call fills the `%1`
inside the directory: the store is opened at "/tmp/app/%2/react-state-store",
which is not the concatenation "/tmp/%1" + "/" + "app" + "/react-state-store". -/
theorem setBridge_path_with_marker :
    ((ReactAsyncLocalStorage.new.setBridge none ⟨"app", "/tmp/%1", "", emptyFiles⟩).m_settings.map
        fun s => s.fileName) = some "/tmp/app/%2/react-state-store"
      ∧ "/tmp/app/%2/react-state-store" ≠ "/tmp/%1" ++ "/" ++ "app" ++ "/react-state-store" := by
  decide

end ReactUbuntu
